import Mathlib

/-!
Verification of `src/gcages/src/gcages/parallelisation.py`.

The module contains two callables:

* `assert_only_working_on_variable_unit_variations(indf)` — a guard that
  asserts a pandas DataFrame varies only in its `variable` and `unit`
  index levels.
* `run_parallel(func_to_call, iterable_input, input_desc, n_processes,
  mp_context=None, *args, **kwargs)` — runs `func_to_call` over
  `iterable_input` either serially (`n_processes == 1`) or through a
  `concurrent.futures.ProcessPoolExecutor`.

The shallow embedding below models:

* a Python callable that may raise as a Lean function into `Except E T`;
* the nondeterministic completion order of `concurrent.futures.as_completed`
  as an explicit `completion_order` parameter, constrained to be a
  permutation of the outcomes of the submitted tasks in the theorems;
* the host platform (availability of the `fork` start method and the
  platform-default start method) as an explicit `Platform` record, so that
  `multiprocessing.get_context("fork")` raising `ValueError` on platforms
  without fork is an explicit branch;
* `ProcessPoolExecutor.__init__`, which raises `ValueError` when
  `max_workers <= 0` (CPython `concurrent/futures/process.py`), as an
  error branch guarding pool creation;
* the guaranteed teardown of the `with ... as executor:` block as an event
  trace: the pool-creation and pool-release events emitted by a call, in
  order.  The `with` statement releases the pool on every exit path, so a
  successful pool creation always contributes `[created, released]`;
* the pandas DataFrame index as a list of level names plus one list of
  index values per row; `indf.pix.unique(cols)` as the deduplicated list
  of per-row projections onto `cols`.  the Python `set(...).difference(...)`
  iterates in unspecified order, so we fix the first-occurrence order of
  the remaining names; the claims only depend on the count and membership
  of the resulting combinations, which are order-independent.

`tqdm` progress bars and `loguru` logging are observational only (the
Progress Reporter of the spec): they do not affect results and are not modelled.
-/

namespace Gcages

/-- A multiprocessing context (`multiprocessing.context.BaseContext`),
identified by its start-method name. -/
structure MpContext where
  method : String
deriving DecidableEq, Repr

/-- Host-platform facts governing `multiprocessing.get_context`:
whether the `fork` start method is available, and the name of the
platform-default start method. -/
structure Platform where
  forkAvailable : Bool
  defaultMethod : String
deriving DecidableEq, Repr

/-- Python exceptions raised by the library code modelled here. -/
inductive PyError where
  | valueError
deriving DecidableEq, Repr

/-- `multiprocessing.get_context("fork")`: returns the fork context, or
raises `ValueError` when the fork start method is unavailable on the host. -/
def get_context_fork (p : Platform) : Except PyError MpContext :=
  if p.forkAvailable then Except.ok ⟨"fork"⟩ else Except.error PyError.valueError

/-- `multiprocessing.get_context()`: the platform-default context; never
raises. -/
def get_context_default (p : Platform) : MpContext :=
  ⟨p.defaultMethod⟩

/-- The `mp_context` selection in the parallel branch of `run_parallel`:

```python
if mp_context is None:
    try:
        mp_context = multiprocessing.get_context("fork")
    except ValueError:
        mp_context = multiprocessing.get_context()
```

An explicitly supplied context is used unconditionally; otherwise fork is
attempted and the `ValueError` from an unavailable fork is caught,
falling back to the platform default. -/
def selectContext (p : Platform) (mp_context : Option MpContext) :
    Except PyError MpContext :=
  match mp_context with
  | some c => Except.ok c
  | none =>
      match get_context_fork p with
      | Except.ok c => Except.ok c
      | Except.error PyError.valueError => Except.ok (get_context_default p)

/-- Pool lifecycle events emitted by `run_parallel`: creation of a
`ProcessPoolExecutor` (with its `max_workers` and `mp_context` arguments)
and its release when the `with` block exits. -/
inductive PoolEvent where
  | created (size : Int) (ctx : MpContext)
  | released
deriving DecidableEq, Repr

/-- The list comprehension of the serial branch

```python
res = [func_to_call(inv, *args, **kwargs) for inv in tqdm.auto.tqdm(...)]
```

applied to an already-partially-applied callable: items are evaluated
left to right and the first raised exception propagates, discarding any
partial results. -/
def serialRun {U T E : Type} (f : U → Except E T) : List U → Except E (List T)
  | [] => Except.ok []
  | inv :: rest =>
      match f inv with
      | Except.error e => Except.error e
      | Except.ok t =>
          match serialRun f rest with
          | Except.error e => Except.error e
          | Except.ok ts => Except.ok (t :: ts)

/-- The retrieval-phase list comprehension

```python
res = [future.result() for future in tqdm.auto.tqdm(concurrent.futures.as_completed(futures), ...)]
```

over the outcomes of the futures in completion order: `future.result()`
re-raises the exception of the task at the point of retrieval, so the first
erroring outcome in completion order propagates, discarding any partial
results. -/
def collectResults {T E : Type} : List (Except E T) → Except E (List T)
  | [] => Except.ok []
  | Except.error e :: _ => Except.error e
  | Except.ok t :: rest =>
      match collectResults rest with
      | Except.error e => Except.error e
      | Except.ok ts => Except.ok (t :: ts)

/-- `run_parallel(func_to_call, iterable_input, input_desc, n_processes,
mp_context=None, *args, **kwargs)`.

`func_to_call` takes a work item plus the shared positional and keyword
arguments and either returns a `T` or raises an `E`.  `completion_order`
is the sequence of task outcomes in the order `as_completed` yields them;
the theorems constrain it to a permutation of the submitted outcomes.
Returns the outcome of the call — the result tuple (as a list), or the raised
exception (`Sum.inl`: an exception of the runner machinery itself,
`Sum.inr`: an exception of `func_to_call`, propagated unwrapped) — paired
with the pool lifecycle event trace. -/
def run_parallel {U T A K E : Type} (func_to_call : U → A → K → Except E T)
    (iterable_input : List U) (input_desc : String) (n_processes : Int)
    (mp_context : Option MpContext) (platform : Platform)
    (args : A) (kwargs : K) (completion_order : List (Except E T)) :
    Except (PyError ⊕ E) (List T) × List PoolEvent :=
  if n_processes = 1 then
    ((serialRun (fun inv => func_to_call inv args kwargs)
        iterable_input).mapError Sum.inr,
      [])
  else
    match selectContext platform mp_context with
    | Except.error err => (Except.error (Sum.inl err), [])
    | Except.ok ctx =>
        if n_processes ≤ 0 then
          -- ProcessPoolExecutor(max_workers=n) raises ValueError for
          -- max_workers <= 0 before any pool exists.
          (Except.error (Sum.inl PyError.valueError), [])
        else
          ((collectResults completion_order).mapError Sum.inr,
            [PoolEvent.created n_processes ctx, PoolEvent.released])

/-- A pandas DataFrame as seen by the invariant guard: the names of the
index levels and, per row, the index values aligned with those names.
The data columns play no role in the guard. -/
structure DataFrame where
  indexNames : List String
  rows : List (List String)
deriving DecidableEq, Repr

/-- `list(set(indf.index.names).difference(["variable", "unit"]))`:
the index level names other than `variable` and `unit` (set semantics:
duplicates collapsed; we fix first-occurrence order, see the header). -/
def nonVariableUnitCols (indf : DataFrame) : List String :=
  (indf.indexNames.filter (fun c => c != "variable" && c != "unit")).dedup

/-- The projection of one index row onto the named levels (a level name
absent from the index projects to `none`; on well-formed frames every
requested name is present). -/
def projectRow (indf : DataFrame) (cols : List String) (row : List String) :
    List (Option String) :=
  cols.map (fun c => (indf.indexNames.zip row).lookup c)

/-- `indf.pix.unique(cols)`: the distinct joint value-combinations that
the rows of `indf` take on the index levels `cols`. -/
def uniqueCombinations (indf : DataFrame) (cols : List String) :
    List (List (Option String)) :=
  (indf.rows.map (projectRow indf cols)).dedup

/-- The `AssertionError` raised by the guard, carrying the repr of
`variations_in_other_cols` — all observed joint combinations. -/
inductive GuardError where
  | assertionError (variations : List (List (Option String)))
deriving DecidableEq, Repr

/-- `assert_only_working_on_variable_unit_variations(indf)`.

The source only reads `indf` (`set(indf.index.names)` reads the level
names, `indf.pix.unique(...)` builds a fresh index, `.shape[0]` reads its
length), so the embedding passes the frame through as state unchanged:
the returned `DataFrame` is the frame as the call leaves it, and the
`Except` is the outcome of the call. -/
def assert_only_working_on_variable_unit_variations (indf : DataFrame) :
    DataFrame × Except GuardError Unit :=
  let non_v_u_cols := nonVariableUnitCols indf
  let variations_in_other_cols := uniqueCombinations indf non_v_u_cols
  if 1 < variations_in_other_cols.length then
    (indf, Except.error (GuardError.assertionError variations_in_other_cols))
  else
    (indf, Except.ok ())

/-! ### Helper lemmas -/

/-- Decidable equality of task outcomes, used to evaluate concrete runs. -/
instance exceptDecEq {E T : Type} [DecidableEq E] [DecidableEq T] :
    DecidableEq (Except E T) := fun a b =>
  match a, b with
  | Except.ok x, Except.ok y =>
      if h : x = y then isTrue (by rw [h])
      else isFalse (by intro hc; cases hc; exact h rfl)
  | Except.ok _, Except.error _ => isFalse (by intro hc; cases hc)
  | Except.error _, Except.ok _ => isFalse (by intro hc; cases hc)
  | Except.error x, Except.error y =>
      if h : x = y then isTrue (by rw [h])
      else isFalse (by intro hc; cases hc; exact h rfl)


/-- The serial loop is the retrieval loop applied to the per-item outcomes
in input order. -/
theorem serialRun_eq_collect {U T E : Type} (f : U → Except E T) (l : List U) :
    serialRun f l = collectResults (l.map f) := by
  induction l with
  | nil => rfl
  | cons x xs ih => cases hfx : f x <;> simp [serialRun, collectResults, hfx, ih]

/-- Retrieval of outcomes that are all successes returns exactly the
carried values. -/
theorem collectResults_map_ok {T E : Type} (w : List T) :
    collectResults (w.map (Except.ok : T → Except E T)) = Except.ok w := by
  induction w with
  | nil => rfl
  | cons t ts ih => simp [collectResults, ih]

/-- A successful retrieval means every outcome was a success, in order. -/
theorem collectResults_eq_map_ok {T E : Type} (l : List (Except E T)) (w : List T)
    (h : collectResults l = Except.ok w) : l = w.map Except.ok := by
  induction l generalizing w with
  | nil =>
    simp only [collectResults] at h
    cases h
    rfl
  | cons x xs ih =>
    cases x with
    | error e => simp [collectResults] at h
    | ok t =>
      simp only [collectResults] at h
      cases hrest : collectResults xs with
      | error e => rw [hrest] at h; cases h
      | ok ts =>
        rw [hrest] at h
        cases h
        simp [ih ts hrest]

/-- A failed retrieval returns an exception that is among the outcomes. -/
theorem collectResults_error_mem {T E : Type} (l : List (Except E T)) (e : E)
    (h : collectResults l = Except.error e) : Except.error e ∈ l := by
  induction l with
  | nil => simp [collectResults] at h
  | cons x xs ih =>
    cases x with
    | error e2 =>
      simp only [collectResults] at h
      cases h
      exact List.mem_cons_self _ _
    | ok t =>
      simp only [collectResults] at h
      cases hrest : collectResults xs with
      | error e2 =>
        rw [hrest] at h
        cases h
        exact List.mem_cons_of_mem _ (ih hrest)
      | ok ts => rw [hrest] at h; cases h

/-- Retrieval hits the first erroring outcome: successes before it are
discarded and its exception propagates. -/
theorem collectResults_append_error {T E : Type} (w : List T) (l2 : List (Except E T))
    (e : E) :
    collectResults (w.map Except.ok ++ Except.error e :: l2) = Except.error e := by
  induction w with
  | nil => rfl
  | cons t ts ih => simp [collectResults, ih]

/-- A list whose members are all successes is the success image of its
carried values. -/
theorem all_ok_eq_map {T E : Type} (l : List (Except E T))
    (h : ∀ x ∈ l, ∃ t, x = Except.ok t) :
    ∃ w : List T, l = w.map Except.ok := by
  induction l with
  | nil => exact ⟨[], rfl⟩
  | cons x xs ih =>
    obtain ⟨t, ht⟩ := h x (List.mem_cons_self x xs)
    obtain ⟨w, hw⟩ := ih (fun y hy => h y (List.mem_cons_of_mem x hy))
    exact ⟨t :: w, by simp [ht, hw]⟩

/-- A callable that succeeds on every item of a list has a success image
over that list. -/
theorem map_ok_of_total {U T E : Type} (g : U → Except E T) (l : List U)
    (h : ∀ x ∈ l, ∃ t, g x = Except.ok t) :
    ∃ w : List T, l.map g = w.map Except.ok := by
  have := all_ok_eq_map (l.map g) ?_
  · exact this
  · intro x hx
    obtain ⟨u, hu, rfl⟩ := List.mem_map.mp hx
    exact h u hu

/-- Lists with permutation-equivalent success images are themselves
permutation-equivalent. -/
theorem perm_of_map_ok_perm {T E : Type} (a b : List T)
    (h : (a.map (Except.ok : T → Except E T)).Perm (b.map Except.ok)) :
    a.Perm b := by
  have hcoe := Multiset.coe_eq_coe.mpr h
  rw [← Multiset.map_coe, ← Multiset.map_coe] at hcoe
  have hinj : Function.Injective (Except.ok : T → Except E T) := by
    intro x y hxy
    injection hxy
  exact Multiset.coe_eq_coe.mp (Multiset.map_injective hinj hcoe)

/-- Context selection never raises. -/
theorem selectContext_never_raises (p : Platform) (mc : Option MpContext) :
    ∃ c, selectContext p mc = Except.ok c := by
  cases mc with
  | some c => exact ⟨c, rfl⟩
  | none =>
    unfold selectContext get_context_fork
    by_cases h : p.forkAvailable <;> simp [h]

/-- The serial branch of `run_parallel`, as an equation. -/
theorem run_parallel_serial_eq {U T A K E : Type} (func : U → A → K → Except E T)
    (items : List U) (desc : String) (mpc : Option MpContext) (p : Platform)
    (args : A) (kwargs : K) (co : List (Except E T)) :
    run_parallel func items desc 1 mpc p args kwargs co
      = ((serialRun (fun inv => func inv args kwargs) items).mapError Sum.inr,
          []) := by
  simp [run_parallel]

/-- The pool branch of `run_parallel`, as an equation. -/
theorem run_parallel_pool_eq {U T A K E : Type} (func : U → A → K → Except E T)
    (items : List U) (desc : String) (n : Int) (mpc : Option MpContext)
    (p : Platform) (args : A) (kwargs : K) (co : List (Except E T))
    (c : MpContext) (hn : 1 < n) (hc : selectContext p mpc = Except.ok c) :
    run_parallel func items desc n mpc p args kwargs co
      = ((collectResults co).mapError Sum.inr,
          [PoolEvent.created n c, PoolEvent.released]) := by
  have h1 : ¬(n = 1) := by omega
  have h2 : ¬(n ≤ 0) := by omega
  simp [run_parallel, h1, h2, hc]

/-- On a callable that never raises, the serial loop maps over the input
in order. -/
theorem serialRun_ok_of_total {U T E : Type} (f : U → T) (l : List U) :
    serialRun (fun u => (Except.ok (f u) : Except E T)) l
      = Except.ok (l.map f) := by
  induction l with
  | nil => rfl
  | cons x xs ih => simp [serialRun, ih]

/-! ### Claim theorems -/

/-- Claim C1: with `concurrency_degree == 1`, `run_parallel` returns an
ordered collection whose length equals the input length and whose element
at position `i` is the callable applied to the input at position `i` with
the shared extra positional and keyword arguments, sequentially in input
order; in particular doubling over `[1, 2, 3]` returns `(2, 4, 6)`. -/
theorem run_parallel_serial_correct {U T A K E : Type}
    (f : U → A → K → T) (items : List U) (desc : String)
    (mp_context : Option MpContext) (platform : Platform)
    (args : A) (kwargs : K) (co : List (Except E T)) :
    (∃ res,
      (run_parallel (fun u a k => Except.ok (f u a k)) items desc 1 mp_context
          platform args kwargs co).1 = Except.ok res ∧
      res.length = items.length ∧
      ∀ i : Nat, res.get? i = (items.get? i).map (fun u => f u args kwargs)) ∧
    (run_parallel
        (fun (x : Int) (_ : Unit) (_ : Unit) => (Except.ok (x * 2) : Except Unit Int))
        [1, 2, 3] "double" 1 none platform () () []).1
      = Except.ok [2, 4, 6] := by
  constructor
  · refine ⟨items.map (fun u => f u args kwargs), ?_, ?_, ?_⟩
    · rw [run_parallel_serial_eq, serialRun_ok_of_total]
      rfl
    · simp
    · intro i
      simp [List.get?_map]
  · rfl

/-- Claim C10: with `concurrency_degree == 1` the result of `run_parallel`
does not depend on `mp_context`: the serial branch never reads it, so two
runs differing only in `mp_context` coincide. -/
theorem run_parallel_serial_ignores_mp_context {U T A K E : Type}
    (func : U → A → K → Except E T) (items : List U) (desc : String)
    (c1 c2 : Option MpContext) (platform : Platform) (args : A) (kwargs : K)
    (co : List (Except E T)) :
    run_parallel func items desc 1 c1 platform args kwargs co
      = run_parallel func items desc 1 c2 platform args kwargs co := by
  rw [run_parallel_serial_eq, run_parallel_serial_eq]

/-- Claim C7: the invariant guard is read-only over its input: the table
is unchanged by the call, whether the guard passes or raises, and the
only effect of the call is its outcome. -/
theorem assert_vu_read_only (indf : DataFrame) :
    (assert_only_working_on_variable_unit_variations indf).1 = indf := by
  by_cases h : 1 < (uniqueCombinations indf (nonVariableUnitCols indf)).length <;>
    simp [assert_only_working_on_variable_unit_variations, h]

/-- Claim C4: the guard raises an `AssertionError` if and only if the
distinct joint value-combinations of the index dimensions other than
`variable` and `unit` number strictly more than one; the raised error
reports all observed combinations, and every observed combination of a
row in the table is among the reported ones. -/
theorem assert_vu_raises_iff (indf : DataFrame) :
    ((assert_only_working_on_variable_unit_variations indf).2 = Except.ok ()
        ↔ (uniqueCombinations indf (nonVariableUnitCols indf)).length ≤ 1) ∧
    (1 < (uniqueCombinations indf (nonVariableUnitCols indf)).length →
      (assert_only_working_on_variable_unit_variations indf).2
        = Except.error (GuardError.assertionError
            (uniqueCombinations indf (nonVariableUnitCols indf)))) ∧
    (∀ row ∈ indf.rows,
      projectRow indf (nonVariableUnitCols indf) row
        ∈ uniqueCombinations indf (nonVariableUnitCols indf)) := by
  refine ⟨?_, ?_, ?_⟩
  · by_cases h : 1 < (uniqueCombinations indf (nonVariableUnitCols indf)).length <;>
      simp [assert_only_working_on_variable_unit_variations, h] <;> omega
  · intro h
    simp [assert_only_working_on_variable_unit_variations, h]
  · intro row hrow
    unfold uniqueCombinations
    exact List.mem_dedup.mpr (List.mem_map_of_mem _ hrow)

/-- Witness for C4 at a concrete table with two distinct `model` values:
the guard raises and the error names both combinations. -/
theorem assert_vu_raises_iff_witness :
    1 < (uniqueCombinations
          (DataFrame.mk ["model", "variable", "unit"]
            [["m1", "v1", "kg"], ["m2", "v1", "kg"]])
          (nonVariableUnitCols
            (DataFrame.mk ["model", "variable", "unit"]
              [["m1", "v1", "kg"], ["m2", "v1", "kg"]]))).length ∧
    (assert_only_working_on_variable_unit_variations
        (DataFrame.mk ["model", "variable", "unit"]
          [["m1", "v1", "kg"], ["m2", "v1", "kg"]])).2
      = Except.error (GuardError.assertionError
          (uniqueCombinations
            (DataFrame.mk ["model", "variable", "unit"]
              [["m1", "v1", "kg"], ["m2", "v1", "kg"]])
            (nonVariableUnitCols
              (DataFrame.mk ["model", "variable", "unit"]
                [["m1", "v1", "kg"], ["m2", "v1", "kg"]])))) :=
  ⟨by decide,
   (assert_vu_raises_iff
      (DataFrame.mk ["model", "variable", "unit"]
        [["m1", "v1", "kg"], ["m2", "v1", "kg"]])).2.1 (by decide)⟩

/-- Claim C2: a raising callable makes `run_parallel` propagate the raised
exception to its direct caller, unwrapped (a `Sum.inr`, never translated
into a runner exception), in both modes, and the call never returns a
result collection.  Moreover the serial branch fails at the point of the
first failing invocation, and the pool branch fails at the point the
first erroring outcome is retrieved in completion order. -/
theorem run_parallel_propagates_exceptions {U T A K E : Type}
    (func : U → A → K → Except E T) (items : List U) (desc : String)
    (n : Int) (mp_context : Option MpContext) (platform : Platform)
    (args : A) (kwargs : K) (co : List (Except E T)) :
    ((∃ u ∈ items, ∃ e0, func u args kwargs = Except.error e0) →
      co.Perm (items.map (fun u => func u args kwargs)) →
      (n = 1 ∨ 1 < n) →
      ∃ e, (run_parallel func items desc n mp_context platform args kwargs co).1
            = Except.error (Sum.inr e) ∧
        ∃ u ∈ items, func u args kwargs = Except.error e) ∧
    (∀ pre u post e, items = pre ++ u :: post →
      (∀ v ∈ pre, ∃ t, func v args kwargs = Except.ok t) →
      func u args kwargs = Except.error e →
      (run_parallel func items desc 1 mp_context platform args kwargs co).1
        = Except.error (Sum.inr e)) ∧
    (∀ co1 e co2, 1 < n → co = co1 ++ Except.error e :: co2 →
      (∀ x ∈ co1, ∃ t, x = Except.ok t) →
      (run_parallel func items desc n mp_context platform args kwargs co).1
        = Except.error (Sum.inr e)) := by
  obtain ⟨c, hc⟩ := selectContext_never_raises platform mp_context
  refine ⟨?_, ?_, ?_⟩
  · rintro ⟨u, hu, e0, he0⟩ hperm hn
    have hmem : Except.error e0 ∈ co := by
      rw [hperm.mem_iff]
      exact he0 ▸ List.mem_map_of_mem _ hu
    have hsettled : ∀ l : List (Except E T), Except.error e0 ∈ l →
        ∃ e, collectResults l = Except.error e := by
      intro l hl
      cases hcol : collectResults l with
      | error e => exact ⟨e, rfl⟩
      | ok w =>
        rw [collectResults_eq_map_ok l w hcol] at hl
        obtain ⟨t, _, ht⟩ := List.mem_map.mp hl
        cases ht
    rcases hn with h1 | h1
    · subst h1
      obtain ⟨e, he⟩ := hsettled (items.map (fun u => func u args kwargs))
        (he0 ▸ List.mem_map_of_mem _ hu)
      refine ⟨e, ?_, ?_⟩
      · rw [run_parallel_serial_eq]
        simp [serialRun_eq_collect, he, Except.mapError]
      · have := collectResults_error_mem _ _ he
        obtain ⟨v, hv, hve⟩ := List.mem_map.mp this
        exact ⟨v, hv, hve⟩
    · obtain ⟨e, he⟩ := hsettled co hmem
      refine ⟨e, ?_, ?_⟩
      · rw [run_parallel_pool_eq func items desc n mp_context platform args
          kwargs co c h1 hc]
        simp [he, Except.mapError]
      · have hmem2 : Except.error e ∈ items.map (fun u => func u args kwargs) := by
          rw [← hperm.mem_iff]
          exact collectResults_error_mem _ _ he
        obtain ⟨v, hv, hve⟩ := List.mem_map.mp hmem2
        exact ⟨v, hv, hve⟩
  · rintro pre u post e rfl hpre hu
    rw [run_parallel_serial_eq]
    obtain ⟨w, hw⟩ := map_ok_of_total _ pre hpre
    rw [serialRun_eq_collect]
    simp only [List.map_append, List.map_cons, hw, hu]
    rw [collectResults_append_error]
    rfl
  · rintro co1 e co2 h1 rfl hco1
    obtain ⟨w, hw⟩ := all_ok_eq_map co1 hco1
    rw [run_parallel_pool_eq func items desc n mp_context platform args
      kwargs _ c h1 hc]
    subst hw
    rw [collectResults_append_error]
    rfl

/-- Witness for C2: a callable failing on item `2` makes the serial call
fail with that exact exception. -/
theorem run_parallel_propagates_exceptions_witness :
    ∃ e, (run_parallel
        (fun (x : Int) (_ : Unit) (_ : Unit) =>
          if x = 2 then (Except.error 7 : Except Int Int) else Except.ok x)
        [1, 2, 3] "items" 1 none (Platform.mk true "spawn") () ()
        (([1, 2, 3] : List Int).map (fun u =>
          if u = 2 then (Except.error 7 : Except Int Int) else Except.ok u))).1
      = Except.error (Sum.inr e) ∧
    ∃ u ∈ ([1, 2, 3] : List Int),
      (if u = 2 then (Except.error 7 : Except Int Int) else Except.ok u)
        = Except.error e :=
  (run_parallel_propagates_exceptions
      (fun (x : Int) (_ : Unit) (_ : Unit) =>
        if x = 2 then (Except.error 7 : Except Int Int) else Except.ok x)
      [1, 2, 3] "items" 1 none (Platform.mk true "spawn") () ()
      (([1, 2, 3] : List Int).map (fun u =>
        if u = 2 then (Except.error 7 : Except Int Int) else Except.ok u))).1
    ⟨2, by decide, 7, by decide⟩ (List.Perm.refl _) (Or.inl rfl)

/-- Claim C3: with `concurrency_degree > 1` and no failing invocation,
`run_parallel` returns a collection of the same length as the input whose
multiset of elements equals that of the serial path on the same callable,
items and extra arguments; the entries appear in completion order, so only
a permutation relation is asserted. -/
theorem run_parallel_parallel_refines_serial {U T A K E : Type}
    (func : U → A → K → Except E T) (items : List U) (desc descS : String)
    (n : Int) (mp_context mpcS : Option MpContext) (platform pS : Platform)
    (args : A) (kwargs : K) (co : List (Except E T))
    (hn : 1 < n)
    (hperm : co.Perm (items.map (fun u => func u args kwargs)))
    (htotal : ∀ u ∈ items, ∃ t, func u args kwargs = Except.ok t) :
    ∃ parRes serialRes,
      (run_parallel func items desc n mp_context platform args kwargs co).1
        = Except.ok parRes ∧
      (run_parallel func items descS 1 mpcS pS args kwargs co).1
        = Except.ok serialRes ∧
      parRes.length = items.length ∧
      parRes.Perm serialRes := by
  obtain ⟨c, hc⟩ := selectContext_never_raises platform mp_context
  obtain ⟨v, hv⟩ := map_ok_of_total (fun u => func u args kwargs) items htotal
  have hcoall : ∀ x ∈ co, ∃ t, x = Except.ok t := by
    intro x hx
    have : x ∈ items.map (fun u => func u args kwargs) := hperm.mem_iff.mp hx
    rw [hv] at this
    obtain ⟨t, _, rfl⟩ := List.mem_map.mp this
    exact ⟨t, rfl⟩
  obtain ⟨w, hw⟩ := all_ok_eq_map co hcoall
  refine ⟨w, v, ?_, ?_, ?_, ?_⟩
  · rw [run_parallel_pool_eq func items desc n mp_context platform args
      kwargs co c hn hc]
    simp [hw, collectResults_map_ok, Except.mapError]
  · rw [run_parallel_serial_eq, serialRun_eq_collect, hv,
      collectResults_map_ok]
    rfl
  · have h1 : co.length = (items.map (fun u => func u args kwargs)).length :=
      hperm.length_eq
    rw [hw] at h1
    simpa using h1
  · apply perm_of_map_ok_perm
    rw [← hw, ← hv]
    exact hperm

/-- Witness for C3 at a concrete run: degree 2 over `[1, 2, 3]` with the
doubling callable and a reversed completion order yields a permutation of
the serial result. -/
theorem run_parallel_parallel_refines_serial_witness :
    ∃ parRes serialRes,
      (run_parallel
          (fun (x : Int) (_ : Unit) (_ : Unit) =>
            (Except.ok (x * 2) : Except Unit Int))
          [1, 2, 3] "items" 2 none (Platform.mk true "spawn") () ()
          [Except.ok 6, Except.ok 4, Except.ok 2]).1 = Except.ok parRes ∧
      (run_parallel
          (fun (x : Int) (_ : Unit) (_ : Unit) =>
            (Except.ok (x * 2) : Except Unit Int))
          [1, 2, 3] "serial" 1 none (Platform.mk true "spawn") () ()
          [Except.ok 6, Except.ok 4, Except.ok 2]).1 = Except.ok serialRes ∧
      parRes.length = ([1, 2, 3] : List Int).length ∧
      parRes.Perm serialRes :=
  run_parallel_parallel_refines_serial
    (fun (x : Int) (_ : Unit) (_ : Unit) => (Except.ok (x * 2) : Except Unit Int))
    [1, 2, 3] "items" "serial" 2 none none (Platform.mk true "spawn")
    (Platform.mk true "spawn") () () [Except.ok 6, Except.ok 4, Except.ok 2]
    (by decide) (by decide) (fun u _ => ⟨u * 2, rfl⟩)

/-- Claim C5: with `concurrency_degree > 1`, an explicitly supplied
execution context is used unconditionally for the pool; when none is
supplied, context selection (fork attempt with silent fallback to the
platform default) never raises; and the call still completes with the
same outcome whichever platform — and hence whichever fallback context —
is in effect. -/
theorem run_parallel_context_fallback {U T A K E : Type}
    (func : U → A → K → Except E T) (items : List U) (desc : String)
    (n : Int) (p p2 : Platform) (c : MpContext) (args : A) (kwargs : K)
    (co : List (Except E T)) (hn : 1 < n) :
    (run_parallel func items desc n (some c) p args kwargs co).2
        = [PoolEvent.created n c, PoolEvent.released] ∧
    (∀ (q : Platform) (mc : Option MpContext),
      ∃ cc, selectContext q mc = Except.ok cc) ∧
    (run_parallel func items desc n none p args kwargs co).1
        = (run_parallel func items desc n none p2 args kwargs co).1 := by
  refine ⟨?_, selectContext_never_raises, ?_⟩
  · rw [run_parallel_pool_eq func items desc n (some c) p args kwargs co c hn
      rfl]
  · obtain ⟨c1, hc1⟩ := selectContext_never_raises p none
    obtain ⟨c2, hc2⟩ := selectContext_never_raises p2 none
    rw [run_parallel_pool_eq func items desc n none p args kwargs co c1 hn hc1,
      run_parallel_pool_eq func items desc n none p2 args kwargs co c2 hn hc2]

/-- Witness for C5 at degree 2: the explicit spawn context is honored on a
fork-capable platform, selection never raises, and a fork-capable and a
fork-less platform give the same result. -/
theorem run_parallel_context_fallback_witness :
    (run_parallel
        (fun (x : Int) (_ : Unit) (_ : Unit) => (Except.ok x : Except Unit Int))
        [5] "items" 2 (some (MpContext.mk "spawn")) (Platform.mk true "fork")
        () () [Except.ok 5]).2
      = [PoolEvent.created 2 (MpContext.mk "spawn"), PoolEvent.released] ∧
    (∀ (q : Platform) (mc : Option MpContext),
      ∃ cc, selectContext q mc = Except.ok cc) ∧
    (run_parallel
        (fun (x : Int) (_ : Unit) (_ : Unit) => (Except.ok x : Except Unit Int))
        [5] "items" 2 none (Platform.mk true "fork") () () [Except.ok 5]).1
      = (run_parallel
          (fun (x : Int) (_ : Unit) (_ : Unit) => (Except.ok x : Except Unit Int))
          [5] "items" 2 none (Platform.mk false "spawn") () () [Except.ok 5]).1 :=
  run_parallel_context_fallback
    (fun (x : Int) (_ : Unit) (_ : Unit) => (Except.ok x : Except Unit Int))
    [5] "items" 2 (Platform.mk true "fork") (Platform.mk false "spawn")
    (MpContext.mk "spawn") () () [Except.ok 5] (by decide)

/-- Claim C6: with `concurrency_degree > 1` the pool is strictly
call-scoped: it is created sized to the concurrency degree after context
selection, and the event trace of every call — the callable and the
completion order being arbitrary, covering both the normal return and the
task-failure exit — is exactly pool creation followed by pool release, so
no pool survives the call. -/
theorem run_parallel_pool_call_scoped {U T A K E : Type}
    (func : U → A → K → Except E T) (items : List U) (desc : String)
    (n : Int) (mp_context : Option MpContext) (platform : Platform)
    (args : A) (kwargs : K) (co : List (Except E T)) (hn : 1 < n) :
    ∃ ctx, (run_parallel func items desc n mp_context platform args kwargs
        co).2 = [PoolEvent.created n ctx, PoolEvent.released] := by
  obtain ⟨c, hc⟩ := selectContext_never_raises platform mp_context
  refine ⟨c, ?_⟩
  rw [run_parallel_pool_eq func items desc n mp_context platform args kwargs
    co c hn hc]

/-- Witness for C6 on a failing run: even when the only task raises, the
pool is created and then released. -/
theorem run_parallel_pool_call_scoped_witness :
    ∃ ctx, (run_parallel
        (fun (_ : Int) (_ : Unit) (_ : Unit) => (Except.error 9 : Except Int Int))
        [5] "items" 2 none (Platform.mk true "fork") () ()
        [Except.error 9]).2
      = [PoolEvent.created 2 ctx, PoolEvent.released] :=
  run_parallel_pool_call_scoped
    (fun (_ : Int) (_ : Unit) (_ : Unit) => (Except.error 9 : Except Int Int))
    [5] "items" 2 none (Platform.mk true "fork") () () [Except.error 9]
    (by decide)

/-- Claim C8: `run_parallel` branches on the concurrency degree being
exactly 1, not at most 1: every degree other than 1 takes the pool path,
so a non-positive degree does not degrade to serial execution but raises
the `ValueError` of `ProcessPoolExecutor` for a non-positive worker
count, before any pool exists. -/
theorem run_parallel_nonpositive_degree {U T A K E : Type}
    (func : U → A → K → Except E T) (items : List U) (desc : String)
    (n : Int) (mp_context : Option MpContext) (platform : Platform)
    (args : A) (kwargs : K) (co : List (Except E T)) (hn : n ≤ 0) :
    (run_parallel func items desc n mp_context platform args kwargs co).1
        = Except.error (Sum.inl PyError.valueError) ∧
    (run_parallel func items desc n mp_context platform args kwargs co).2
        = [] := by
  obtain ⟨c, hc⟩ := selectContext_never_raises platform mp_context
  have h1 : ¬(n = 1) := by omega
  constructor <;> simp [run_parallel, h1, hc, hn]

/-- Witness for C8 at degree 0: the call raises `ValueError` instead of
running serially. -/
theorem run_parallel_nonpositive_degree_witness :
    (run_parallel
        (fun (x : Int) (_ : Unit) (_ : Unit) => (Except.ok x : Except Unit Int))
        [1, 2] "items" 0 none (Platform.mk true "fork") () () []).1
      = Except.error (Sum.inl PyError.valueError) ∧
    (run_parallel
        (fun (x : Int) (_ : Unit) (_ : Unit) => (Except.ok x : Except Unit Int))
        [1, 2] "items" 0 none (Platform.mk true "fork") () () []).2
      = [] :=
  run_parallel_nonpositive_degree
    (fun (x : Int) (_ : Unit) (_ : Unit) => (Except.ok x : Except Unit Int))
    [1, 2] "items" 0 none (Platform.mk true "fork") () () [] (by decide)

/-- Claim C9: on an empty input, both the serial path (degree 1) and the
pool path (degree above 1) return the empty tuple, and the result does
not depend on the callable — it is never invoked. -/
theorem run_parallel_empty_input {U T A K E : Type}
    (func g : U → A → K → Except E T) (desc : String) (n : Int)
    (mp_context : Option MpContext) (platform : Platform)
    (args : A) (kwargs : K) (hn : n = 1 ∨ 1 < n) :
    (run_parallel func [] desc n mp_context platform args kwargs []).1
        = Except.ok [] ∧
    run_parallel func [] desc n mp_context platform args kwargs []
      = run_parallel g [] desc n mp_context platform args kwargs [] := by
  obtain ⟨c, hc⟩ := selectContext_never_raises platform mp_context
  rcases hn with h | h
  · subst h
    rw [run_parallel_serial_eq, run_parallel_serial_eq]
    exact ⟨rfl, rfl⟩
  · rw [run_parallel_pool_eq func [] desc n mp_context platform args kwargs []
      c h hc,
      run_parallel_pool_eq g [] desc n mp_context platform args kwargs []
      c h hc]
    exact ⟨rfl, rfl⟩

/-- Witness for C9 on both paths: serial and pool calls on the empty list
return the empty collection for two different callables. -/
theorem run_parallel_empty_input_witness :
    ((run_parallel
        (fun (x : Int) (_ : Unit) (_ : Unit) => (Except.ok x : Except Unit Int))
        [] "items" 1 none (Platform.mk true "fork") () () []).1
      = Except.ok [] ∧
    run_parallel
        (fun (x : Int) (_ : Unit) (_ : Unit) => (Except.ok x : Except Unit Int))
        [] "items" 1 none (Platform.mk true "fork") () () []
      = run_parallel
          (fun (_ : Int) (_ : Unit) (_ : Unit) => (Except.error () : Except Unit Int))
          [] "items" 1 none (Platform.mk true "fork") () () []) ∧
    ((run_parallel
        (fun (x : Int) (_ : Unit) (_ : Unit) => (Except.ok x : Except Unit Int))
        [] "items" 2 none (Platform.mk true "fork") () () []).1
      = Except.ok [] ∧
    run_parallel
        (fun (x : Int) (_ : Unit) (_ : Unit) => (Except.ok x : Except Unit Int))
        [] "items" 2 none (Platform.mk true "fork") () () []
      = run_parallel
          (fun (_ : Int) (_ : Unit) (_ : Unit) => (Except.error () : Except Unit Int))
          [] "items" 2 none (Platform.mk true "fork") () () []) :=
  ⟨run_parallel_empty_input
      (fun (x : Int) (_ : Unit) (_ : Unit) => (Except.ok x : Except Unit Int))
      (fun (_ : Int) (_ : Unit) (_ : Unit) => (Except.error () : Except Unit Int))
      "items" 1 none (Platform.mk true "fork") () () (Or.inl rfl),
   run_parallel_empty_input
      (fun (x : Int) (_ : Unit) (_ : Unit) => (Except.ok x : Except Unit Int))
      (fun (_ : Int) (_ : Unit) (_ : Unit) => (Except.error () : Except Unit Int))
      "items" 2 none (Platform.mk true "fork") () () (Or.inr (by decide))⟩

end Gcages
